import Mathlib

/-!
Verification of the concurrent-task-pool engine (swsk33/concurrent-task-pool).

This file shallowly embeds the data structures and operations of the Go
sources and proves (or refutes) the specification claims about them.

Contents:
* `ArrayQueue` — the growable circular buffer of `returnable_worker.go`
  (`NewArrayQueue`, `NewArrayQueueFromSlice`, `copy`, `scale`, `queueFull`,
  `getRear`, `Offer`, `Poll`, `Peek`, `Clear`, `IsEmpty`, `ToSlice`).
  Go's built-in `copy` is modelled by `goCopy`; a Go runtime panic
  (integer division by zero in `getRear` when the backing slice is empty)
  is modelled by `Offer` returning `none`.
* `mapSet` — the map-backed set of `map_set.go`, modelled by its key list.
* `basePool` — the pool record of `base_pool.go` with `IsAllDone`,
  `Interrupt`, `Retry`, the task-list getters and `GetAllTaskList`.
* `returnableWorker.collect` — the result-collection conditional of the
  returnable worker.
* `autoSaveComponent` / `TaskPool.startEpilogue` — the auto-save ticker of
  `EnableTaskAutoSave` / `DisableTaskAutoSave` and the statements executed
  when `TaskPool.Start` returns.
* `SysState` / `Step` — a small-step interleaving semantics of the worker
  loop (`worker.start`), the control loop of `TaskPool.Start`, and the
  callback surface (`Retry`, `Interrupt`, the termination signal), at the
  granularity of one shared-memory operation per step.
-/

/-- Models Go's built-in `copy(dst, src)`: the first `min |dst| |src|`
elements of `dst` become the corresponding elements of `src`, the rest of
`dst` is unchanged, and the length of `dst` is kept. -/
def goCopy {T : Type} (dst src : List T) : List T :=
  src.take dst.length ++ dst.drop src.length

/-- Embeds `ArrayQueue` of `returnable_worker.go`: a circular queue over a
backing slice `data`, head index `front`, and element count `size`.
The mutex field is not part of the functional state. -/
structure ArrayQueue (T : Type) where
  data : List T
  front : Nat
  size : Nat
deriving DecidableEq

/-- Embeds `NewArrayQueue`: initial capacity 10 (a zero-filled backing
slice, which is what Go's `make([]T, 10)` produces), `front = 0`,
`size = 0`. The Go zero value of `T` is passed explicitly as `z`. -/
def NewArrayQueue {T : Type} (z : T) : ArrayQueue T :=
  { data := List.replicate 10 z, front := 0, size := 0 }

/-- Embeds `NewArrayQueueFromSlice`: the backing slice is a copy of the
given slice, `front = 0`, `size = len(slice)`. Note the backing capacity
equals the slice length, so an empty slice yields capacity 0. -/
def NewArrayQueueFromSlice {T : Type} (slice : List T) : ArrayQueue T :=
  { data := slice, front := 0, size := slice.length }

/-- Embeds `ArrayQueue.getRear`: `(front + size) % len(data)`.
In Go this expression panics when `len(data) = 0`; `Offer` (the only
caller that indexes with it) models that panic explicitly. -/
def ArrayQueue.getRear {T : Type} (q : ArrayQueue T) : Nat :=
  (q.front + q.size) % q.data.length

/-- Embeds `ArrayQueue.queueFull`: `size == len(data)`. -/
def ArrayQueue.queueFull {T : Type} (q : ArrayQueue T) : Bool :=
  q.size == q.data.length

/-- Embeds `ArrayQueue.copy(targetSize)`: returns a fresh slice of length
`max targetSize size` (Go first raises `targetSize` to `size` and then
allocates a zero-filled slice of that length) holding the queue elements
from head to tail, linearized to start at index 0; when the stored
segment wraps, the two halves are copied one after the other. -/
def ArrayQueue.copy {T : Type} (z : T) (q : ArrayQueue T) (targetSize : Nat) : List T :=
  if q.size = 0 then []
  else
    let target := if targetSize < q.size then q.size else targetSize
    let rear := q.getRear
    let newCopy := List.replicate target z
    if q.front + 1 ≤ rear then
      goCopy newCopy ((q.data.drop q.front).take (rear - q.front))
    else
      let frontToEnd := q.data.drop q.front
      let startToRear := q.data.take rear
      let step1 := goCopy newCopy frontToEnd
      step1.take frontToEnd.length ++ goCopy (step1.drop frontToEnd.length) startToRear

/-- Embeds `ArrayQueue.scale`: the backing slice becomes
`copy(len(data) * 2)` and the head index is reset to 0. -/
def ArrayQueue.scale {T : Type} (z : T) (q : ArrayQueue T) : ArrayQueue T :=
  { data := q.copy z (q.data.length * 2), front := 0, size := q.size }

/-- Embeds `ArrayQueue.Offer(element)`: if the queue is full it first
scales, then writes the element at `getRear` and increments `size`.
Returns `none` exactly when Go panics: computing `getRear` divides by
`len(data)`, which is 0 when the (possibly just scaled) backing slice is
empty. -/
def ArrayQueue.Offer {T : Type} (z : T) (q : ArrayQueue T) (element : T) : Option (ArrayQueue T) :=
  let q1 := if q.queueFull then q.scale z else q
  if q1.data.length = 0 then none
  else some { data := q1.data.set q1.getRear element, front := q1.front, size := q1.size + 1 }

/-- Embeds `ArrayQueue.Peek`: the head element, or the zero value of `T`
when the queue is empty. -/
def ArrayQueue.Peek {T : Type} (z : T) (q : ArrayQueue T) : T :=
  if q.size = 0 then z else q.data.getD q.front z

/-- Embeds `ArrayQueue.Poll`: reads `Peek`, and when the queue is
non-empty advances `front` modulo the capacity and decrements `size`.
Returns the polled element together with the queue after the call. -/
def ArrayQueue.Poll {T : Type} (z : T) (q : ArrayQueue T) : T × ArrayQueue T :=
  let polledElement := q.Peek z
  if q.size ≠ 0 then
    (polledElement,
      { data := q.data, front := (q.front + 1) % q.data.length, size := q.size - 1 })
  else (polledElement, q)

/-- Embeds `ArrayQueue.IsEmpty`. -/
def ArrayQueue.IsEmpty {T : Type} (q : ArrayQueue T) : Bool :=
  q.size == 0

/-- Embeds `ArrayQueue.Clear`: `size = 0`, `front = 0` (data untouched). -/
def ArrayQueue.Clear {T : Type} (q : ArrayQueue T) : ArrayQueue T :=
  { data := q.data, front := 0, size := 0 }

/-- Embeds `ArrayQueue.ToSlice`: `copy(size)`, the head-to-tail snapshot
of the queue. -/
def ArrayQueue.ToSlice {T : Type} (z : T) (q : ArrayQueue T) : List T :=
  q.copy z q.size

/-- Well-formedness of a queue state: the element count fits into the
backing slice and the head index is a valid position (for the capacity-0
queue produced by `NewArrayQueueFromSlice []`, the head index is 0).
Every queue produced by the constructors satisfies it, and every
operation preserves it. -/
def ArrayQueue.wf {T : Type} (q : ArrayQueue T) : Prop :=
  q.size ≤ q.data.length
    ∧ (q.data.length = 0 → q.front = 0)
    ∧ (q.data.length ≠ 0 → q.front < q.data.length)

instance ArrayQueue.wfDecidable {T : Type} (q : ArrayQueue T) : Decidable q.wf :=
  inferInstanceAs (Decidable (q.size ≤ q.data.length
    ∧ (q.data.length = 0 → q.front = 0)
    ∧ (q.data.length ≠ 0 → q.front < q.data.length)))

/-- Iterated `Offer`, in insertion order; `none` as soon as one `Offer`
panics. -/
def ArrayQueue.offerAll {T : Type} (z : T) (q : ArrayQueue T) : List T → Option (ArrayQueue T)
  | [] => some q
  | x :: xs =>
    match q.Offer z x with
    | none => none
    | some q' => q'.offerAll z xs

/-- Iterated `Poll`: the sequence of `n` successively polled elements. -/
def ArrayQueue.drain {T : Type} (z : T) (q : ArrayQueue T) : Nat → List T
  | 0 => []
  | n + 1 =>
    (q.Poll z).1 :: ((q.Poll z).2.drain z n)

/-- Embeds `mapSet.add` of `map_set.go` on the set's key list: a Go map
assignment `data[item] = nil` keeps an existing key and adds a missing
one. -/
def mapSet.add {T : Type} [DecidableEq T] (data : List T) (item : T) : List T :=
  if item ∈ data then data else data ++ [item]

/-- Embeds `mapSet.remove`: Go's `delete(data, item)` removes the key. -/
def mapSet.remove {T : Type} [DecidableEq T] (data : List T) (item : T) : List T :=
  data.filter (fun x => decide (x ≠ item))

/-- Embeds `mapSet.size`: the number of keys. -/
def mapSet.size {T : Type} (data : List T) : Nat :=
  data.length

/-- Modelled from the spec: `newMapSetFromSlice` is called by
`basePool.GetAllTaskList` (src/base_pool.go) but its definition is not
among the provided sources; following the spec's description of
`GetAllTaskList` as a de-duplicated union, it builds a `mapSet`
containing exactly the elements of the given slice. -/
def newMapSetFromSlice {T : Type} [DecidableEq T] (slice : List T) : List T :=
  slice.foldl mapSet.add []

/-- Embeds the `basePool` record of `base_pool.go`: the worker count, the
task queue, the running-task set (its key list) and the interrupt flag.
The two spawn/delay durations and the save ticker only affect timing and
the auto-save component (modelled separately) and are not part of this
functional state. -/
structure basePool (T : Type) where
  concurrent : Nat
  taskQueue : ArrayQueue T
  runningTasks : List T
  isInterrupt : Bool
deriving DecidableEq

/-- Embeds `basePool.IsAllDone`: queue empty and running set empty. -/
def basePool.IsAllDone {T : Type} (pool : basePool T) : Bool :=
  pool.taskQueue.IsEmpty && (mapSet.size pool.runningTasks == 0)

/-- Embeds `basePool.Interrupt`: sets the interrupt flag to true. -/
def basePool.Interrupt {T : Type} (pool : basePool T) : basePool T :=
  { pool with isInterrupt := true }

/-- Embeds `basePool.GetQueuedTaskList`: `taskQueue.toSlice()`. -/
def basePool.GetQueuedTaskList {T : Type} (z : T) (pool : basePool T) : List T :=
  pool.taskQueue.ToSlice z

/-- Embeds `basePool.GetRunningTaskList`: `runningTasks.toSlice()`. -/
def basePool.GetRunningTaskList {T : Type} (pool : basePool T) : List T :=
  pool.runningTasks

/-- Embeds `basePool.GetAllTaskList`: a `mapSet` is built from the queued
task list, every running task is added to it, and its element list is
returned. -/
def basePool.GetAllTaskList {T : Type} [DecidableEq T] (z : T) (pool : basePool T) : List T :=
  (pool.GetRunningTaskList).foldl mapSet.add (newMapSetFromSlice (pool.GetQueuedTaskList z))

/-- Embeds `basePool.Retry`: `taskQueue.offer(task)`; `none` when the
enqueue panics (capacity-0 queue, see `ArrayQueue.Offer`). -/
def basePool.Retry {T : Type} (z : T) (pool : basePool T) (task : T) : Option (basePool T) :=
  (pool.taskQueue.Offer z task).map fun queueAfter => { pool with taskQueue := queueAfter }

/-- Embeds the `basePool` literal built by `NewTaskPool` /
`NewReturnableTaskPool` (src/task_pool.go, src/returnable_task_pool.go):
queue from the task list, empty running set, interrupt flag false. -/
def NewTaskPoolBase {T : Type} (concurrent : Nat) (taskList : List T) : basePool T :=
  { concurrent := concurrent
    taskQueue := NewArrayQueueFromSlice taskList
    runningTasks := []
    isInterrupt := false }

/-- Embeds the result-collection conditional of `returnableWorker.start`
(src/unnamed/part_005 lines 57-62, src/returnable_worker.go lines 57-63):
`if result != zero || (result == zero && !ignoreEmpty)` the result is
appended to the shared result slice, otherwise it is dropped. -/
def returnableWorker.collect {R : Type} [DecidableEq R]
    (resultZero : R) (ignoreEmpty : Bool) (resultList : List R) (result : R) : List R :=
  if result ≠ resultZero ∨ (result = resultZero ∧ ignoreEmpty = false) then
    resultList ++ [result]
  else resultList

/-- State of the auto-save machinery of one pool: the pool itself and
whether the `saveTicker` created by `EnableTaskAutoSave` is currently
running (delivering ticks). -/
structure autoSaveComponent (T : Type) where
  pool : basePool T
  tickerRunning : Bool
deriving DecidableEq

/-- Embeds `basePool.EnableTaskAutoSave` (src/base_pool.go lines
157-167): it stores a fresh running `time.Ticker` in `pool.saveTicker`
and launches the save goroutine; on this component the effect is that
the ticker is running. -/
def basePool.EnableTaskAutoSave {T : Type} (s : autoSaveComponent T) : autoSaveComponent T :=
  { s with tickerRunning := true }

/-- Embeds `basePool.DisableTaskAutoSave` (src/base_pool.go lines
172-176): `saveTicker.Stop()` when the ticker exists; a stopped ticker
delivers no further ticks. -/
def basePool.DisableTaskAutoSave {T : Type} (s : autoSaveComponent T) : autoSaveComponent T :=
  { s with tickerRunning := false }

/-- Embeds one iteration of the auto-save goroutine
`for range pool.saveTicker.C { pool.SaveTaskList(file) ... }`
(src/base_pool.go lines 159-166): a tick is delivered exactly when the
ticker is running, and the loop body then calls `SaveTaskList`
unconditionally — the loop consults neither `IsAllDone` nor
`isInterrupt`. The value is whether a save is performed at the tick. -/
def autoSaveTickSaves {T : Type} (s : autoSaveComponent T) : Bool :=
  s.tickerRunning

/-- State visible to the final statements of `TaskPool.Start`: the
auto-save component, the worker-stop flag, and whether the signal
channel has been stopped and closed. -/
structure startEndState (T : Type) where
  autoSave : autoSaveComponent T
  workerShutdown : Bool
  signalsStopped : Bool
deriving DecidableEq

/-- Embeds the statements executed when `TaskPool.Start` returns
(src/task_pool.go lines 147-153): `workerShutdown = true`, then
`signal.Stop(signals); close(signals)`. No statement touches
`saveTicker`; in particular `DisableTaskAutoSave` is not called. -/
def TaskPool.startEpilogue {T : Type} (s : startEndState T) : startEndState T :=
  { s with workerShutdown := true, signalsStopped := true }

/-- Phase of one worker's loop (`worker.start`, src/unnamed/part_006):
`idle` at the top of the loop, `polled t` after `taskQueue.poll()`
returned the non-zero task `t` and before `runningTasks.add(t)`, and
`running t` from the `add` until the user routine has returned and the
worker executes `runningTasks.remove(t)`. -/
inductive WorkerPhase (T : Type) where
  | idle : WorkerPhase T
  | polled : T → WorkerPhase T
  | running : T → WorkerPhase T
deriving DecidableEq

/-- Global state of the interleaved pool system: the task queue contents
(head first; the circular buffer is abstracted by its `ToSlice` image,
valid for positive-capacity queues by `ArrayQueue.Offer` / `Poll`
correctness), the running mapSet's key list, the phase of each worker,
the pool's interrupt flag, and the `workerShutdown` flag of
`TaskPool.Start`. -/
structure SysState (T : Type) where
  queue : List T
  running : List T
  workers : List (WorkerPhase T)
  isInterrupt : Bool
  workerShutdown : Bool
deriving DecidableEq

/-- Small-step interleaving semantics of the pool, one shared-memory
operation per step, mirroring `worker.start` (src/unnamed/part_006),
`TaskPool.Start` (src/task_pool.go lines 109-154) and the `basePool`
control surface. `z` is the zero value of the task type, used by the
worker as the empty-queue sentinel. -/
inductive Step {T : Type} [DecidableEq T] (z : T) : SysState T → SysState T → Prop where
  /-- Worker `i` passes the `!*isShutdown` check and polls the empty
  queue: `poll` returns the zero value and the worker loops
  (`continue`); no state changes. -/
  | pollEmptyQueue (s : SysState T) (i : Nat)
      (hrun : s.workerShutdown = false)
      (hw : s.workers[i]? = some WorkerPhase.idle)
      (hq : s.queue = []) :
      Step z s s
  /-- Worker `i` polls a task equal to the zero value: the task is
  removed from the queue but the worker skips it (`continue`). -/
  | pollZeroTask (s : SysState T) (i : Nat) (rest : List T)
      (hrun : s.workerShutdown = false)
      (hw : s.workers[i]? = some WorkerPhase.idle)
      (hq : s.queue = z :: rest) :
      Step z s { s with queue := rest }
  /-- Worker `i` polls a non-zero task `t`: `t` leaves the queue and the
  worker holds it, not yet recorded in the running set. -/
  | pollTask (s : SysState T) (i : Nat) (t : T) (rest : List T)
      (hrun : s.workerShutdown = false)
      (hw : s.workers[i]? = some WorkerPhase.idle)
      (hq : s.queue = t :: rest) (ht : t ≠ z) :
      Step z s { s with queue := rest, workers := s.workers.set i (WorkerPhase.polled t) }
  /-- Worker `i` executes `runningTasks.add(task)` and enters the user
  routine. -/
  | addRunning (s : SysState T) (i : Nat) (t : T)
      (hw : s.workers[i]? = some (WorkerPhase.polled t)) :
      Step z s { s with workers := s.workers.set i (WorkerPhase.running t),
                        running := mapSet.add s.running t }
  /-- A callback (the user routine or the lookup hook) calls
  `pool.Retry(t')`: `t'` is appended at the queue tail. -/
  | retryCall (s : SysState T) (t' : T) :
      Step z s { s with queue := s.queue ++ [t'] }
  /-- A callback calls `pool.Interrupt()`: the interrupt flag is set. -/
  | interruptCall (s : SysState T) :
      Step z s { s with isInterrupt := true }
  /-- The termination-signal goroutine of `TaskPool.Start` fires: it sets
  `workerShutdown`, runs the shutdown callback, and marks the pool
  interrupted. -/
  | signalShutdown (s : SysState T) :
      Step z s { s with workerShutdown := true, isInterrupt := true }
  /-- The control loop of `TaskPool.Start` observes its exit predicate
  (`isInterrupt || IsAllDone`) and sets `workerShutdown = true`. -/
  | ctrlExit (s : SysState T)
      (hdone : s.isInterrupt = true ∨ (s.queue = [] ∧ s.running = [])) :
      Step z s { s with workerShutdown := true }
  /-- The user routine of worker `i` returns and the worker executes
  `runningTasks.remove(task)`, going back to the top of its loop. -/
  | finishTask (s : SysState T) (i : Nat) (t : T)
      (hw : s.workers[i]? = some (WorkerPhase.running t)) :
      Step z s { s with workers := s.workers.set i WorkerPhase.idle,
                        running := mapSet.remove s.running t }

/-! Helper lemmas about the circular buffer. -/

theorem mod_split (a cap : Nat) (h1 : a < 2 * cap) (h0 : 0 < cap) :
    a % cap = if a < cap then a else a - cap := by
  split
  · exact Nat.mod_eq_of_lt (by omega)
  · rename_i h
    have h2 : a = (a - cap) + cap := by omega
    conv_lhs => rw [h2]
    rw [Nat.add_mod_right]
    exact Nat.mod_eq_of_lt (by omega)

theorem rot_offer {T : Type} (d : List T) (f s : Nat) (x : T)
    (hf : f < d.length) (hs : s < d.length) :
    (((d.set ((f + s) % d.length) x) ++ (d.set ((f + s) % d.length) x)).drop f).take (s + 1)
      = (((d ++ d).drop f).take s) ++ [x] := by
  have hcap : 0 < d.length := by omega
  rw [mod_split (f + s) d.length (by omega) hcap]
  apply List.ext_getElem?
  intro i
  simp only [List.getElem?_take, List.getElem?_drop, List.getElem?_append,
    List.getElem?_set, List.length_set, List.length_append, List.length_take,
    List.length_drop, List.getElem?_cons, List.getElem?_nil, Nat.min_def]
  split_ifs <;>
    first
      | rfl
      | omega
      | (rw [List.getElem?_eq_none (by omega)])
      | (symm; rw [List.getElem?_eq_none (by omega)])
      | (congr 1; omega)

theorem rot_poll {T : Type} (d : List T) (f s : Nat) (z : T)
    (hf : f < d.length) (hs0 : 0 < s) (hs : s ≤ d.length) :
    ((d ++ d).drop f).take s
      = d.getD f z :: (((d ++ d).drop ((f + 1) % d.length)).take (s - 1)) := by
  have hcap : 0 < d.length := by omega
  rw [mod_split (f + 1) d.length (by omega) hcap]
  rw [List.getD_eq_getElem?_getD, List.getElem?_eq_getElem hf]
  apply List.ext_getElem?
  intro i
  simp only [List.getElem?_take, List.getElem?_drop, List.getElem?_append,
    List.getElem?_cons, List.length_append, List.length_take, List.length_drop,
    Nat.min_def, Option.getD_some]
  split_ifs <;>
    first
      | rfl
      | omega
      | (rw [List.getElem?_eq_none (by omega)])
      | (symm; rw [List.getElem?_eq_none (by omega)])
      | (congr 1; omega)
      | (rw [List.getElem?_eq_getElem hf]; congr 1; omega)
      | (symm; rw [List.getElem?_eq_getElem (by omega : f < d.length)]; congr 1; omega)
      | simp_all

set_option maxHeartbeats 1000000 in
theorem ArrayQueue.copy_eq {T : Type} (z : T) (q : ArrayQueue T) (t : Nat)
    (hwf : q.wf) (hs : 0 < q.size) :
    q.copy z t = ((q.data ++ q.data).drop q.front).take q.size
      ++ List.replicate (max t q.size - q.size) z := by
  obtain ⟨h1, h2, h3⟩ := hwf
  have hcap : 0 < q.data.length := by omega
  have hf : q.front < q.data.length := h3 (by omega)
  have htar : (if t < q.size then q.size else t) = max t q.size := by split <;> omega
  unfold ArrayQueue.copy goCopy ArrayQueue.getRear
  rw [mod_split (q.front + q.size) q.data.length (by omega) hcap]
  simp only [htar, if_neg (by omega : ¬ q.size = 0)]
  rcases Nat.lt_or_ge (q.front + q.size) q.data.length with hsplit | hsplit
  · rw [if_pos hsplit, if_pos (by omega : q.front + 1 ≤ q.front + q.size)]
    apply List.ext_getElem?
    intro i
    simp only [List.getElem?_take, List.getElem?_drop, List.getElem?_append,
      List.getElem?_replicate, List.length_append, List.length_take, List.length_drop,
      List.length_replicate, Nat.min_def]
    split_ifs <;>
      first
        | rfl
        | omega
        | (rw [List.getElem?_eq_none (by omega)])
        | (symm; rw [List.getElem?_eq_none (by omega)])
        | (congr 1; omega)
  · have hrear : (if q.front + q.size < q.data.length then q.front + q.size
        else q.front + q.size - q.data.length) = q.front + q.size - q.data.length :=
      if_neg (by omega)
    rw [hrear, if_neg (by omega : ¬ (q.front + 1 ≤ q.front + q.size - q.data.length))]
    apply List.ext_getElem?
    intro i
    simp only [List.getElem?_take, List.getElem?_drop, List.getElem?_append,
      List.getElem?_replicate, List.length_append, List.length_take, List.length_drop,
      List.length_replicate]
    split_ifs <;>
      first
        | rfl
        | omega
        | (rw [List.getElem?_eq_none (by omega)])
        | (symm; rw [List.getElem?_eq_none (by omega)])
        | (congr 1; omega)

theorem ArrayQueue.toSlice_eq {T : Type} (z : T) (q : ArrayQueue T) (hwf : q.wf) :
    q.ToSlice z = ((q.data ++ q.data).drop q.front).take q.size := by
  rcases Nat.eq_zero_or_pos q.size with hs | hs
  · rw [ArrayQueue.ToSlice, ArrayQueue.copy, if_pos hs, hs, List.take_zero]
  · rw [ArrayQueue.ToSlice, ArrayQueue.copy_eq z q q.size hwf hs]
    simp

theorem ArrayQueue.length_toSlice {T : Type} (z : T) (q : ArrayQueue T) (hwf : q.wf) :
    (q.ToSlice z).length = q.size := by
  obtain ⟨h1, h2, h3⟩ := hwf
  rw [ArrayQueue.toSlice_eq z q ⟨h1, h2, h3⟩]
  rcases Nat.eq_zero_or_pos q.data.length with hc | hc
  · simp only [List.length_take, List.length_drop, List.length_append]
    omega
  · have := h3 (by omega)
    simp only [List.length_take, List.length_drop, List.length_append]
    omega

theorem ArrayQueue.wf_newArrayQueue {T : Type} (z : T) : (NewArrayQueue z).wf := by
  refine ⟨by simp [NewArrayQueue], by simp [NewArrayQueue], by simp [NewArrayQueue]⟩

theorem ArrayQueue.wf_fromSlice {T : Type} (slice : List T) :
    (NewArrayQueueFromSlice slice).wf := by
  refine ⟨le_refl _, fun _ => rfl, fun h => ?_⟩
  simp only [NewArrayQueueFromSlice] at *
  omega

set_option maxHeartbeats 1000000 in
theorem ArrayQueue.offer_spec {T : Type} (z : T) (q : ArrayQueue T) (x : T)
    (hwf : q.wf) (hcap : 0 < q.data.length) :
    ∃ q', q.Offer z x = some q'
      ∧ q'.wf
      ∧ q'.size = q.size + 1
      ∧ q'.data.length = (if q.queueFull then 2 * q.data.length else q.data.length)
      ∧ q'.front = (if q.queueFull then 0 else q.front)
      ∧ q'.ToSlice z = q.ToSlice z ++ [x] := by
  obtain ⟨h1, h2, h3⟩ := hwf
  have hf : q.front < q.data.length := h3 (by omega)
  by_cases hfull : q.size = q.data.length
  · -- full queue: scale first
    have hqf : q.queueFull = true := by simp [ArrayQueue.queueFull, hfull]
    have hs0 : 0 < q.size := by omega
    have hcopy := ArrayQueue.copy_eq z q (q.data.length * 2) ⟨h1, h2, h3⟩ hs0
    have hmax : max (q.data.length * 2) q.size = q.data.length * 2 := by omega
    rw [hmax] at hcopy
    have hdiff : q.data.length * 2 - q.size = q.data.length := by omega
    rw [hdiff] at hcopy
    have hRlen : (((q.data ++ q.data).drop q.front).take q.size).length = q.size := by
      simp only [List.length_take, List.length_drop, List.length_append]
      omega
    have hrepl : List.replicate q.data.length z = z :: List.replicate (q.data.length - 1) z := by
      conv_lhs => rw [show q.data.length = (q.data.length - 1) + 1 from by omega]
      rw [List.replicate_succ]
    -- the scaled queue
    have hscale : q.scale z
        = ⟨((q.data ++ q.data).drop q.front).take q.size ++ List.replicate q.data.length z,
           0, q.size⟩ := by
      rw [ArrayQueue.scale, hcopy]
    have hlen1 : (((q.data ++ q.data).drop q.front).take q.size
        ++ List.replicate q.data.length z).length = q.size + q.data.length := by
      simp only [List.length_append, List.length_replicate, hRlen]
    -- evaluate Offer
    have hrear1 : (⟨((q.data ++ q.data).drop q.front).take q.size
        ++ List.replicate q.data.length z, 0, q.size⟩ : ArrayQueue T).getRear = q.size := by
      rw [ArrayQueue.getRear]
      show (0 + q.size) % (((q.data ++ q.data).drop q.front).take q.size
        ++ List.replicate q.data.length z).length = q.size
      rw [hlen1, Nat.zero_add, Nat.mod_eq_of_lt (by omega)]
    have hset : (((q.data ++ q.data).drop q.front).take q.size
          ++ List.replicate q.data.length z).set q.size x
        = ((q.data ++ q.data).drop q.front).take q.size
          ++ x :: List.replicate (q.data.length - 1) z := by
      rw [List.set_append_right _ _ (by omega : (((q.data ++ q.data).drop q.front).take q.size).length ≤ q.size)]
      rw [hRlen, Nat.sub_self, hrepl, List.set_cons_zero]
    have hDlen : (((q.data ++ q.data).drop q.front).take q.size
        ++ x :: List.replicate (q.data.length - 1) z).length = q.size + q.data.length := by
      simp only [List.length_append, List.length_cons, List.length_replicate, hRlen]
      omega
    have hwf' : (⟨((q.data ++ q.data).drop q.front).take q.size
        ++ x :: List.replicate (q.data.length - 1) z, 0, q.size + 1⟩ : ArrayQueue T).wf := by
      refine ⟨?_, fun _ => rfl, fun h => Nat.pos_of_ne_zero h⟩
      show q.size + 1 ≤ (((q.data ++ q.data).drop q.front).take q.size
        ++ x :: List.replicate (q.data.length - 1) z).length
      rw [hDlen]
      omega
    refine ⟨⟨((q.data ++ q.data).drop q.front).take q.size
        ++ x :: List.replicate (q.data.length - 1) z, 0, q.size + 1⟩, ?_, hwf', rfl, ?_, ?_, ?_⟩
    · rw [ArrayQueue.Offer]
      simp only [hqf, if_pos, hscale]
      rw [if_neg (by simp only [hlen1]; omega)]
      rw [hrear1, hset]
    · show (((q.data ++ q.data).drop q.front).take q.size
        ++ x :: List.replicate (q.data.length - 1) z).length
        = if q.queueFull then 2 * q.data.length else q.data.length
      rw [hDlen, if_pos hqf]
      omega
    · show (0 : Nat) = if q.queueFull then 0 else q.front
      rw [if_pos hqf]
    · rw [ArrayQueue.toSlice_eq z _ hwf']
      rw [ArrayQueue.toSlice_eq z q ⟨h1, h2, h3⟩]
      dsimp only
      simp only [List.drop_zero]
      rw [List.take_append_eq_append_take, hDlen]
      rw [show q.size + 1 - (q.size + q.data.length) = 0 from by omega, List.take_zero,
        List.append_nil]
      rw [List.take_append_eq_append_take, hRlen]
      rw [List.take_of_length_le (by rw [hRlen]; omega : (((q.data ++ q.data).drop q.front).take
        q.size).length ≤ q.size + 1)]
      rw [show q.size + 1 - q.size = 1 from by omega]
      rw [show (1 : Nat) = 0 + 1 from rfl, List.take_succ_cons, List.take_zero]
  · -- queue not full: direct write at the rear
    have hqf : q.queueFull = false := by simp [ArrayQueue.queueFull, hfull]
    have hwf' : (⟨q.data.set q.getRear x, q.front, q.size + 1⟩ : ArrayQueue T).wf := by
      refine ⟨?_, ?_, ?_⟩ <;> simp only [List.length_set] <;> omega
    refine ⟨⟨q.data.set q.getRear x, q.front, q.size + 1⟩, ?_, hwf', rfl, ?_, ?_, ?_⟩
    · rw [ArrayQueue.Offer]
      simp only [hqf, Bool.false_eq_true, if_false]
      rw [if_neg (by omega)]
    · simp only [List.length_set, hqf, Bool.false_eq_true, if_false]
    · simp [hqf]
    · rw [ArrayQueue.toSlice_eq z _ hwf']
      simp only [ArrayQueue.getRear]
      rw [rot_offer q.data q.front q.size x hf (by omega)]
      rw [ArrayQueue.toSlice_eq z q ⟨h1, h2, h3⟩]

theorem ArrayQueue.poll_empty {T : Type} (z : T) (q : ArrayQueue T) (hs : q.size = 0) :
    q.Poll z = (z, q) := by
  rw [ArrayQueue.Poll, ArrayQueue.Peek]
  simp [hs]

theorem ArrayQueue.poll_spec {T : Type} (z : T) (q : ArrayQueue T)
    (hwf : q.wf) (hs : q.size ≠ 0) :
    q.Poll z = (q.data.getD q.front z,
        ⟨q.data, (q.front + 1) % q.data.length, q.size - 1⟩)
      ∧ (⟨q.data, (q.front + 1) % q.data.length, q.size - 1⟩ : ArrayQueue T).wf
      ∧ q.ToSlice z = q.data.getD q.front z
          :: ((⟨q.data, (q.front + 1) % q.data.length, q.size - 1⟩ : ArrayQueue T).ToSlice z) := by
  obtain ⟨h1, h2, h3⟩ := hwf
  have hcap : 0 < q.data.length := by omega
  have hf : q.front < q.data.length := h3 (by omega)
  have hwf2 : (⟨q.data, (q.front + 1) % q.data.length, q.size - 1⟩ : ArrayQueue T).wf := by
    refine ⟨?_, ?_, ?_⟩
    · show q.size - 1 ≤ q.data.length
      omega
    · intro h
      exact absurd (show q.data.length = 0 from h) (by omega)
    · intro _
      show (q.front + 1) % q.data.length < q.data.length
      exact Nat.mod_lt _ hcap
  refine ⟨?_, hwf2, ?_⟩
  · rw [ArrayQueue.Poll, ArrayQueue.Peek]
    simp [hs]
  · rw [ArrayQueue.toSlice_eq z q ⟨h1, h2, h3⟩, ArrayQueue.toSlice_eq z _ hwf2]
    exact rot_poll q.data q.front q.size z hf (by omega) h1

theorem ArrayQueue.drain_toSlice {T : Type} (z : T) :
    ∀ (n : Nat) (q : ArrayQueue T), q.wf → q.size = n → q.drain z n = q.ToSlice z := by
  intro n
  induction n with
  | zero =>
    intro q hwf hn
    rw [ArrayQueue.drain, ArrayQueue.ToSlice, ArrayQueue.copy, if_pos hn]
  | succ n ih =>
    intro q hwf hn
    obtain ⟨hpoll, hwf2, hcons⟩ := ArrayQueue.poll_spec z q hwf (by omega)
    simp only [ArrayQueue.drain]
    rw [hpoll]
    dsimp only
    rw [ih _ hwf2 (by show q.size - 1 = n; omega)]
    rw [hcons]

theorem ArrayQueue.offerAll_spec {T : Type} (z : T) :
    ∀ (xs : List T) (q : ArrayQueue T), q.wf → 0 < q.data.length →
    ∃ q', q.offerAll z xs = some q' ∧ q'.wf ∧ 0 < q'.data.length
      ∧ q'.ToSlice z = q.ToSlice z ++ xs := by
  intro xs
  induction xs with
  | nil =>
    intro q hwf hcap
    exact ⟨q, rfl, hwf, hcap, by simp⟩
  | cons x xs ih =>
    intro q hwf hcap
    obtain ⟨q1, hq1, hwf1, hsize1, hlen1, hfront1, hslice1⟩ :=
      ArrayQueue.offer_spec z q x hwf hcap
    have hcap1 : 0 < q1.data.length := by
      rw [hlen1]
      split <;> omega
    obtain ⟨q', hq', hwf', hcap', hslice'⟩ := ih q1 hwf1 hcap1
    refine ⟨q', ?_, hwf', hcap', ?_⟩
    · rw [ArrayQueue.offerAll, hq1]
      exact hq'
    · rw [hslice', hslice1]
      simp

theorem mapSet.mem_add {T : Type} [DecidableEq T] (l : List T) (a x : T) :
    x ∈ mapSet.add l a ↔ x ∈ l ∨ x = a := by
  by_cases h : a ∈ l
  · rw [mapSet.add, if_pos h]
    constructor
    · exact Or.inl
    · rintro (hx | rfl)
      · exact hx
      · exact h
  · rw [mapSet.add, if_neg h]
    simp

theorem mapSet.nodup_add {T : Type} [DecidableEq T] (l : List T) (a : T) (h : l.Nodup) :
    (mapSet.add l a).Nodup := by
  by_cases ha : a ∈ l
  · rw [mapSet.add, if_pos ha]
    exact h
  · rw [mapSet.add, if_neg ha]
    simp [List.nodup_append, h, ha]

theorem mapSet.mem_foldl_add {T : Type} [DecidableEq T] :
    ∀ (ls init : List T) (x : T), x ∈ ls.foldl mapSet.add init ↔ x ∈ init ∨ x ∈ ls := by
  intro ls
  induction ls with
  | nil =>
    intro init x
    simp
  | cons a ls ih =>
    intro init x
    rw [List.foldl_cons, ih (mapSet.add init a) x, mapSet.mem_add]
    simp only [List.mem_cons]
    tauto

theorem mapSet.nodup_foldl_add {T : Type} [DecidableEq T] :
    ∀ (ls init : List T), init.Nodup → (ls.foldl mapSet.add init).Nodup := by
  intro ls
  induction ls with
  | nil =>
    intro init h
    exact h
  | cons a ls ih =>
    intro init h
    exact ih _ (mapSet.nodup_add _ _ h)

/-! Helper lemmas about the interleaving model. -/

theorem getElem?_set_cases {T : Type} (l : List T) (i j : Nat) (v w : T)
    (h : (l.set i v)[j]? = some w) : (i = j ∧ w = v) ∨ (i ≠ j ∧ l[j]? = some w) := by
  rw [List.getElem?_set] at h
  by_cases hij : i = j
  · rw [if_pos hij] at h
    split at h
    · exact Or.inl ⟨hij, (Option.some.inj h).symm⟩
    · exact Option.noConfusion h
  · rw [if_neg hij] at h
    exact Or.inr ⟨hij, h⟩

theorem step_interrupt_mono {T : Type} [DecidableEq T] (z : T) (s s' : SysState T)
    (hstep : Step z s s') (h : s.isInterrupt = true) : s'.isInterrupt = true := by
  cases hstep <;> simp_all

theorem star_interrupt_mono {T : Type} [DecidableEq T] (z : T) (s s' : SysState T)
    (h : Relation.ReflTransGen (Step z) s s') (hi : s.isInterrupt = true) :
    s'.isInterrupt = true := by
  induction h with
  | refl => exact hi
  | tail hab hbc ih => exact step_interrupt_mono z _ _ hbc ih

theorem step_shutdown_mono {T : Type} [DecidableEq T] (z : T) (s s' : SysState T)
    (hstep : Step z s s') (h : s.workerShutdown = true) : s'.workerShutdown = true := by
  cases hstep <;> simp_all

/-- Preservation of the single-worker running-set invariant by one step:
if the pool has one worker and every task held in running phase is in
the running set, the same holds after any step. -/
theorem step_running_mem {T : Type} [DecidableEq T] (z : T) (s s' : SysState T)
    (hstep : Step z s s')
    (hlen : s.workers.length = 1)
    (hinv : ∀ (i : Nat) (t : T), s.workers[i]? = some (WorkerPhase.running t) → t ∈ s.running) :
    s'.workers.length = 1
      ∧ (∀ (i : Nat) (t : T), s'.workers[i]? = some (WorkerPhase.running t) → t ∈ s'.running) := by
  cases hstep with
  | pollEmptyQueue i h1 h2 h3 => exact ⟨hlen, hinv⟩
  | pollZeroTask i rest h1 h2 h3 => exact ⟨hlen, hinv⟩
  | pollTask i t rest h1 h2 h3 h4 =>
    refine ⟨by simp [hlen], ?_⟩
    intro j t' hj
    have hj' : (s.workers.set i (WorkerPhase.polled t))[j]? = some (WorkerPhase.running t') := hj
    rcases getElem?_set_cases _ _ _ _ _ hj' with ⟨hij, hw⟩ | ⟨hij, hw⟩
    · exact absurd hw (by simp)
    · exact hinv j t' hw
  | addRunning i t hw =>
    refine ⟨by simp [hlen], ?_⟩
    intro j t' hj
    have hj' : (s.workers.set i (WorkerPhase.running t))[j]? = some (WorkerPhase.running t') := hj
    show t' ∈ mapSet.add s.running t
    rcases getElem?_set_cases _ _ _ _ _ hj' with ⟨hij, hv⟩ | ⟨hij, hv⟩
    · have ht : t' = t := by
        simpa [WorkerPhase.running.injEq] using hv
      exact (mapSet.mem_add _ _ _).mpr (Or.inr ht)
    · exact (mapSet.mem_add _ _ _).mpr (Or.inl (hinv j t' hv))
  | retryCall t' => exact ⟨hlen, hinv⟩
  | interruptCall => exact ⟨hlen, hinv⟩
  | signalShutdown => exact ⟨hlen, hinv⟩
  | ctrlExit hdone => exact ⟨hlen, hinv⟩
  | finishTask i t hw =>
    refine ⟨by simp [hlen], ?_⟩
    intro j t' hj
    have hj' : (s.workers.set i WorkerPhase.idle)[j]? = some (WorkerPhase.running t') := hj
    rcases getElem?_set_cases _ _ _ _ _ hj' with ⟨hij, hv⟩ | ⟨hij, hv⟩
    · exact absurd hv (by simp)
    · obtain ⟨hi, _⟩ := List.getElem?_eq_some.mp hw
      obtain ⟨hjlt, _⟩ := List.getElem?_eq_some.mp hv
      omega

/-- Single-worker reachability invariant: from an initial state with one
idle worker and an empty running set, every reachable state has one
worker, and every task whose user routine is in progress (worker in
running phase) is in the running set. -/
theorem reachable_running_mem {T : Type} [DecidableEq T] (z : T) (q0 : List T) (s : SysState T)
    (h : Relation.ReflTransGen (Step z)
      ⟨q0, [], [WorkerPhase.idle], false, false⟩ s) :
    s.workers.length = 1
      ∧ (∀ (i : Nat) (t : T), s.workers[i]? = some (WorkerPhase.running t) → t ∈ s.running) := by
  induction h with
  | refl =>
    refine ⟨rfl, ?_⟩
    intro i t hcontra
    have hcontra' : ([WorkerPhase.idle] : List (WorkerPhase T))[i]?
        = some (WorkerPhase.running t) := hcontra
    rcases i with _ | i <;> simp_all
  | tail hab hbc ih => exact step_running_mem z _ _ hbc ih.1 ih.2

/-- After the worker-stop flag is set, no step dispatches a task: a
worker holding a freshly polled task in the post-state already held it
in the pre-state, and the queue only ever grows (by `Retry`). -/
theorem step_no_dispatch_after_shutdown {T : Type} [DecidableEq T] (z : T) (s s' : SysState T)
    (hstep : Step z s s') (hsd : s.workerShutdown = true) :
    (∀ (i : Nat) (t : T), s'.workers[i]? = some (WorkerPhase.polled t)
      → s.workers[i]? = some (WorkerPhase.polled t))
    ∧ (∃ ext, s'.queue = s.queue ++ ext) := by
  cases hstep with
  | pollEmptyQueue i h1 h2 h3 => exact ⟨fun i t h => h, [], by simp⟩
  | pollZeroTask i rest h1 h2 h3 => simp_all
  | pollTask i t rest h1 h2 h3 h4 => simp_all
  | addRunning i t hw =>
    refine ⟨?_, [], by simp⟩
    intro j t' hj
    have hj' : (s.workers.set i (WorkerPhase.running t))[j]? = some (WorkerPhase.polled t') := hj
    rcases getElem?_set_cases _ _ _ _ _ hj' with ⟨hij, hv⟩ | ⟨hij, hv⟩
    · exact absurd hv (by simp)
    · exact hv
  | retryCall t' => exact ⟨fun i t h => h, [t'], rfl⟩
  | interruptCall => exact ⟨fun i t h => h, [], by simp⟩
  | signalShutdown => exact ⟨fun i t h => h, [], by simp⟩
  | ctrlExit hdone => exact ⟨fun i t h => h, [], by simp⟩
  | finishTask i t hw =>
    refine ⟨?_, [], by simp⟩
    intro j t' hj
    have hj' : (s.workers.set i WorkerPhase.idle)[j]? = some (WorkerPhase.polled t') := hj
    rcases getElem?_set_cases _ _ _ _ _ hj' with ⟨hij, hv⟩ | ⟨hij, hv⟩
    · exact absurd hv (by simp)
    · exact hv

/-! Claim theorems. -/

/-- C3: in the returnable pool, the worker appends the routine's result
to the shared result sequence if and only if it is not the case that the
result equals its type's zero value and the pool was started with
`ignoreEmpty = true`; equivalently, with `ignoreEmpty = false` every
result (including zero values) is collected, and with
`ignoreEmpty = true` exactly the non-zero results are collected. -/
theorem claim_C3 {R : Type} [DecidableEq R] (resultZero result : R) (ignoreEmpty : Bool)
    (resultList : List R) :
    (returnableWorker.collect resultZero ignoreEmpty resultList result
        = resultList ++ [result]
      ↔ ¬ (result = resultZero ∧ ignoreEmpty = true))
    ∧ (returnableWorker.collect resultZero ignoreEmpty resultList result = resultList
      ↔ (result = resultZero ∧ ignoreEmpty = true)) := by
  have hne : resultList ++ [result] ≠ resultList := by
    intro h
    have := congrArg List.length h
    simp at this
  rw [returnableWorker.collect]
  by_cases hr : result = resultZero <;> cases ignoreEmpty <;> simp_all

/-- C4: polling an empty queue does not block and does not error: it
returns the zero-value "no element" indication and leaves the queue
state unchanged; polling a non-empty well-formed queue returns the head
element, advances the head index modulo the capacity, and decrements the
size by exactly one. -/
theorem claim_C4 {T : Type} (z : T) (q : ArrayQueue T) :
    (q.size = 0 → q.Poll z = (z, q))
    ∧ (q.wf → q.size ≠ 0 →
        (q.Poll z).1 = q.data.getD q.front z
        ∧ (q.Poll z).1 = (q.ToSlice z).headD z
        ∧ (q.Poll z).2 = ⟨q.data, (q.front + 1) % q.data.length, q.size - 1⟩
        ∧ (q.Poll z).2.size = q.size - 1
        ∧ (q.Poll z).2.ToSlice z = (q.ToSlice z).tail) := by
  constructor
  · exact fun hs => ArrayQueue.poll_empty z q hs
  · intro hwf hs
    obtain ⟨hpoll, hwf2, hcons⟩ := ArrayQueue.poll_spec z q hwf hs
    rw [hpoll]
    refine ⟨rfl, ?_, rfl, rfl, ?_⟩
    · rw [hcons]
      rfl
    · rw [hcons]
      rfl

/-- Witness for C4: the empty default queue polls to the zero sentinel
unchanged, and a concrete two-element queue polls its head and advances. -/
theorem claim_C4_witness :
    (NewArrayQueue (0 : Nat)).Poll 0 = (0, NewArrayQueue 0)
    ∧ ((NewArrayQueueFromSlice [7, 8]).Poll (0 : Nat)).1 = 7
    ∧ ((NewArrayQueueFromSlice [7, 8]).Poll (0 : Nat)).2 = ⟨[7, 8], 1, 1⟩ := by
  refine ⟨(claim_C4 0 (NewArrayQueue 0)).1 rfl, ?_, ?_⟩
  · have h := (claim_C4 0 (NewArrayQueueFromSlice [7, 8])).2 (by decide) (by decide)
    exact h.1.trans (by decide)
  · have h := (claim_C4 0 (NewArrayQueueFromSlice [7, 8])).2 (by decide) (by decide)
    exact h.2.2.1.trans (by decide)

/-- C8: `GetAllTaskList` returns a list with no duplicate elements whose
set of elements equals the union of the elements of `GetQueuedTaskList`
and `GetRunningTaskList`. -/
theorem claim_C8 {T : Type} [DecidableEq T] (z : T) (pool : basePool T) :
    (pool.GetAllTaskList z).Nodup
    ∧ ∀ x : T, x ∈ pool.GetAllTaskList z
        ↔ (x ∈ pool.GetQueuedTaskList z ∨ x ∈ pool.GetRunningTaskList) := by
  constructor
  · exact mapSet.nodup_foldl_add _ _ (mapSet.nodup_foldl_add _ _ List.nodup_nil)
  · intro x
    rw [basePool.GetAllTaskList, mapSet.mem_foldl_add, newMapSetFromSlice,
      mapSet.mem_foldl_add]
    simp

/-- C10: `Offer` satisfies its append postcondition only under a
positive-capacity precondition: the queue built from the empty slice has
capacity 0, `scale` leaves that capacity at 0, and the first `Offer`
(and hence the first `Retry` on a pool built from an empty task list)
does not terminate normally — modelled by `none`, the Go
division-by-zero panic in the tail-index computation; for every
well-formed queue with positive capacity, `Offer` succeeds, increments
the size and appends the element at the tail. -/
theorem claim_C10 :
    ((NewArrayQueueFromSlice ([] : List Nat)).data.length = 0)
    ∧ (((NewArrayQueueFromSlice ([] : List Nat)).scale 0).data.length = 0)
    ∧ (∀ x : Nat, (NewArrayQueueFromSlice ([] : List Nat)).Offer 0 x = none)
    ∧ (∀ t : Nat, basePool.Retry 0 (NewTaskPoolBase 1 ([] : List Nat)) t = none)
    ∧ (∀ {T : Type} (z : T) (q : ArrayQueue T) (x : T), q.wf → 0 < q.data.length →
        ∃ q', q.Offer z x = some q' ∧ q'.size = q.size + 1
          ∧ q'.ToSlice z = q.ToSlice z ++ [x]) := by
  refine ⟨rfl, rfl, fun x => rfl, fun t => rfl, ?_⟩
  intro T z q x hwf hcap
  obtain ⟨q', h1, _, h3, _, _, h6⟩ := ArrayQueue.offer_spec z q x hwf hcap
  exact ⟨q', h1, h3, h6⟩

/-- Witness for C10: offering onto a concrete full two-element queue
succeeds with the element appended at the tail. -/
theorem claim_C10_witness :
    ∃ q', (NewArrayQueueFromSlice [4, 5]).Offer (0 : Nat) 6 = some q'
      ∧ q'.size = 3 ∧ q'.ToSlice 0 = [4, 5, 6] := by
  obtain ⟨q', h1, h2, h3⟩ :=
    claim_C10.2.2.2.2 0 (NewArrayQueueFromSlice [4, 5]) 6 (by decide) (by decide)
  exact ⟨q', h1, h2.trans (by decide), h3.trans (by decide)⟩

/-- C2 counterexample: the claim quantifies over every queue, but for
the capacity-0 queue built from the empty slice a single enqueue — a
sequence that exceeds the current capacity — terminates abnormally (Go
division-by-zero panic, modelled by `none`): no queue results whose
snapshot is the insertion sequence `[5]`, and the doubling step leaves
the capacity at zero. -/
theorem claim_C2_counterexample :
    (NewArrayQueueFromSlice ([] : List Nat)).offerAll 0 [5] = none := rfl

/-- C2 amended: for every well-formed queue with positive backing
capacity, enqueueing beyond the capacity grows the buffer by doubling
with the stored elements relinearized from the head to index 0 (head
reset to 0), and any sequence of enqueues followed by a full drain (or
snapshot) yields exactly the prior contents followed by the insertion
order, with no element lost, duplicated, or reordered. -/
theorem claim_C2_amended :
    (∀ {T : Type} (z : T) (q : ArrayQueue T) (x : T) (q' : ArrayQueue T),
      q.wf → 0 < q.data.length → q.queueFull = true → q.Offer z x = some q' →
        q'.data.length = 2 * q.data.length ∧ q'.front = 0)
    ∧ (∀ {T : Type} (z : T) (q : ArrayQueue T) (xs : List T), q.wf → 0 < q.data.length →
        ∃ q', q.offerAll z xs = some q'
          ∧ q'.ToSlice z = q.ToSlice z ++ xs
          ∧ q'.drain z q'.size = q.ToSlice z ++ xs) := by
  constructor
  · intro T z q x q' hwf hcap hfull hoffer
    obtain ⟨q'', h1, hwf'', hsz, hlen, hfront, hslice⟩ := ArrayQueue.offer_spec z q x hwf hcap
    rw [h1] at hoffer
    obtain rfl := Option.some.inj hoffer
    rw [if_pos hfull] at hlen
    rw [if_pos hfull] at hfront
    exact ⟨hlen, hfront⟩
  · intro T z q xs hwf hcap
    obtain ⟨q', h1, hwf', hcap', hslice⟩ := ArrayQueue.offerAll_spec z xs q hwf hcap
    refine ⟨q', h1, hslice, ?_⟩
    rw [ArrayQueue.drain_toSlice z q'.size q' hwf' rfl, hslice]

/-- Witness for C2: a full two-element queue grows to capacity 4 with
head 0 on the next enqueue, and enqueueing three elements onto it then
draining yields exactly the insertion order. -/
theorem claim_C2_amended_witness :
    ((NewArrayQueueFromSlice [1, 2]).Offer (0 : Nat) 3
        = some ⟨[1, 2, 3, 0], 0, 3⟩)
    ∧ (⟨[1, 2, 3, 0], 0, 3⟩ : ArrayQueue Nat).data.length = 2 * 2
    ∧ (⟨[1, 2, 3, 0], 0, 3⟩ : ArrayQueue Nat).front = 0
    ∧ ∃ q', (NewArrayQueueFromSlice [1, 2]).offerAll (0 : Nat) [3, 4, 5] = some q'
        ∧ q'.ToSlice 0 = [1, 2, 3, 4, 5]
        ∧ q'.drain 0 q'.size = [1, 2, 3, 4, 5] := by
  refine ⟨by decide, ?_, ?_, ?_⟩
  · obtain ⟨hlen, hfront⟩ := claim_C2_amended.1 0 (NewArrayQueueFromSlice [1, 2]) 3
      ⟨[1, 2, 3, 0], 0, 3⟩ (by decide) (by decide) (by decide) (by decide)
    exact hlen
  · obtain ⟨hlen, hfront⟩ := claim_C2_amended.1 0 (NewArrayQueueFromSlice [1, 2]) 3
      ⟨[1, 2, 3, 0], 0, 3⟩ (by decide) (by decide) (by decide) (by decide)
    exact hfront
  · obtain ⟨q', h1, h2, h3⟩ := claim_C2_amended.2 0 (NewArrayQueueFromSlice [1, 2]) [3, 4, 5]
      (by decide) (by decide)
    exact ⟨q', h1, h2.trans (by decide), h3.trans (by decide)⟩

/-- C5 counterexample: the claim quantifies over every pool state, but on
a pool built from the empty task list (whose queue has capacity 0)
`Retry` does not terminate normally (Go division-by-zero panic, modelled
by `none`), so no post-state with the appended snapshot exists. -/
theorem claim_C5_counterexample :
    basePool.Retry 0 (NewTaskPoolBase 3 ([] : List Nat)) 9 = none := rfl

/-- C5 amended: for every pool whose task queue is well-formed with
positive backing capacity, `Retry(t)` re-enqueues `t` at the tail: the
queued-task snapshot after `Retry` is the snapshot before with `t`
appended, and the running set, the interrupt flag and the concurrency
degree are unchanged. -/
theorem claim_C5_amended {T : Type} (z : T) (pool : basePool T) (task : T)
    (hwf : pool.taskQueue.wf) (hcap : 0 < pool.taskQueue.data.length) :
    ∃ pool', basePool.Retry z pool task = some pool'
      ∧ pool'.GetQueuedTaskList z = pool.GetQueuedTaskList z ++ [task]
      ∧ pool'.GetRunningTaskList = pool.GetRunningTaskList
      ∧ pool'.isInterrupt = pool.isInterrupt
      ∧ pool'.concurrent = pool.concurrent := by
  obtain ⟨q', h1, hwf', hsz, hlen, hfront, hslice⟩ :=
    ArrayQueue.offer_spec z pool.taskQueue task hwf hcap
  refine ⟨{ pool with taskQueue := q' }, ?_, ?_, rfl, rfl, rfl⟩
  · rw [basePool.Retry, h1]
    rfl
  · exact hslice

/-- Witness for C5: retrying task 3 on a concrete pool with queued tasks
[1, 2] appends it at the tail of the queued snapshot. -/
theorem claim_C5_amended_witness :
    ∃ pool', basePool.Retry (0 : Nat) (NewTaskPoolBase 2 [1, 2]) 3 = some pool'
      ∧ pool'.GetQueuedTaskList 0 = [1, 2, 3]
      ∧ pool'.isInterrupt = false := by
  obtain ⟨pool', h1, h2, h3, h4, h5⟩ :=
    claim_C5_amended 0 (NewTaskPoolBase 2 [1, 2]) 3 (by decide) (by decide)
  exact ⟨pool', h1, h2.trans (by decide), h4.trans (by decide)⟩

/-- C6 (code bug): the auto-save goroutine installed by
`EnableTaskAutoSave` iterates `for range saveTicker.C` and saves on
every tick without consulting `IsAllDone()` or the interrupt flag, and
the epilogue of `TaskPool.Start` never stops the ticker (it only sets
the worker-stop flag and closes the signal channel): on a pool that is
all done and interrupted, and after `Start`'s return epilogue, the next
tick still performs a save — contrary to the claim and to the code's own
`DisableTaskAutoSave` doc comment and README, which promise that the
auto-save is closed automatically on completion or interruption.
`DisableTaskAutoSave` itself does stop the ticker, but nothing invokes
it. -/
theorem claim_C6_bug :
    (NewTaskPoolBase 1 ([] : List Nat)).IsAllDone = true
    ∧ ((NewTaskPoolBase 1 ([] : List Nat)).Interrupt).isInterrupt = true
    ∧ (∀ (s : startEndState Nat), (TaskPool.startEpilogue s).autoSave = s.autoSave)
    ∧ autoSaveTickSaves (TaskPool.startEpilogue
        { autoSave := basePool.EnableTaskAutoSave
            { pool := (NewTaskPoolBase 1 ([] : List Nat)).Interrupt, tickerRunning := false },
          workerShutdown := false, signalsStopped := false }).autoSave = true
    ∧ (∀ (s : autoSaveComponent Nat),
        autoSaveTickSaves (basePool.DisableTaskAutoSave s) = false) := by
  exact ⟨rfl, rfl, fun s => rfl, rfl, fun s => rfl⟩

/-- C7: the pool's interrupt flag is monotonic: it is false at
construction, `Interrupt` sets it to true, a successful `Retry` leaves
it unchanged, and no step of the interleaved system (worker loop,
control loop, `Retry`/`Interrupt` callbacks, the signal hook) — nor any
sequence of steps — ever takes it from true back to false. -/
theorem claim_C7 :
    (∀ (c : Nat) (taskList : List Nat), (NewTaskPoolBase c taskList).isInterrupt = false)
    ∧ (∀ (pool : basePool Nat), pool.Interrupt.isInterrupt = true)
    ∧ (∀ (z : Nat) (pool pool' : basePool Nat) (t : Nat),
        basePool.Retry z pool t = some pool' → pool'.isInterrupt = pool.isInterrupt)
    ∧ (∀ (z : Nat) (s s' : SysState Nat), Step z s s'
        → s.isInterrupt = true → s'.isInterrupt = true)
    ∧ (∀ (z : Nat) (s s' : SysState Nat), Relation.ReflTransGen (Step z) s s'
        → s.isInterrupt = true → s'.isInterrupt = true) := by
  refine ⟨fun c l => rfl, fun pool => rfl, ?_, ?_, ?_⟩
  · intro z pool pool' t h
    rw [basePool.Retry] at h
    cases hq : pool.taskQueue.Offer z t with
    | none =>
      rw [hq] at h
      exact Option.noConfusion h
    | some q' =>
      rw [hq] at h
      simp only [Option.map_some'] at h
      obtain rfl := Option.some.inj h.symm
      rfl
  · exact fun z s s' h => step_interrupt_mono z s s' h
  · exact fun z s s' h => star_interrupt_mono z s s' h

/-- Witness for C7: applying the step-monotonicity conjunct to a
concrete control-loop exit step from an interrupted state. -/
theorem claim_C7_witness :
    ({ queue := [], running := [], workers := [], isInterrupt := true,
        workerShutdown := true } : SysState Nat).isInterrupt = true :=
  claim_C7.2.2.2.1 0
    { queue := [], running := [], workers := [], isInterrupt := true, workerShutdown := false }
    _ (Step.ctrlExit _ (Or.inl rfl)) rfl

/-- C1 counterexample: an observable window DOES exist in which a
dispatched-but-unfinished task is in neither container. From the initial
single-worker pool with task list [1], one step (`Poll` returning task
1) reaches a state in which the worker holds task 1 — dequeued, its
routine not yet begun, so neither done nor interrupted — while the task
queue and the running set are both empty. The insertion into the running
set (`runningTasks.add`) only happens at the worker's next step. -/
theorem claim_C1_counterexample :
    Relation.ReflTransGen (Step (0 : Nat))
      ⟨[1], [], [WorkerPhase.idle], false, false⟩
      ⟨[], [], [WorkerPhase.polled 1], false, false⟩
    ∧ (⟨[], [], [WorkerPhase.polled 1], false, false⟩ : SysState Nat).workers[0]?
        = some (WorkerPhase.polled 1)
    ∧ (1 : Nat) ∉ (⟨[], [], [WorkerPhase.polled 1], false, false⟩ : SysState Nat).queue
    ∧ (1 : Nat) ∉ (⟨[], [], [WorkerPhase.polled 1], false, false⟩ : SysState Nat).running := by
  refine ⟨?_, rfl, by simp, by simp⟩
  exact Relation.ReflTransGen.single (Step.pollTask _ 0 1 [] rfl rfl rfl (by decide))

/-- C1 amended: except during the window between a worker's dequeue of a
task and its insertion into the running set (where the task is
observably in neither container, per the counterexample), a dispatched
task of a single-worker pool is tracked: in every state reachable from
an initial single-worker pool, every task whose user-routine invocation
is in progress is in the running set (and a task not yet dequeued is in
the queue by definition). -/
theorem claim_C1_amended (q0 : List Nat) (s : SysState Nat)
    (h : Relation.ReflTransGen (Step (0 : Nat))
      ⟨q0, [], [WorkerPhase.idle], false, false⟩ s)
    (i : Nat) (t : Nat) (hrun : s.workers[i]? = some (WorkerPhase.running t)) :
    t ∈ s.running :=
  (reachable_running_mem 0 q0 s h).2 i t hrun

/-- Witness for C1: in the concretely reached state in which the worker
is running task 1, task 1 is in the running set. -/
theorem claim_C1_amended_witness :
    (1 : Nat) ∈ (⟨[], [1], [WorkerPhase.running 1], false, false⟩ : SysState Nat).running := by
  refine claim_C1_amended [1] _ ?_ 0 1 rfl
  exact Relation.ReflTransGen.tail
    (Relation.ReflTransGen.single (Step.pollTask _ 0 1 [] rfl rfl rfl (by decide)))
    (Step.addRunning _ 0 1 rfl)

/-- C9 counterexample: with concurrency 1 and tasks [1..5], `Interrupt`
called during task 2's routine does not prevent later dispatch: in the
interleaving in which the control loop is not scheduled before the
worker's next iterations (nothing forces it to be), the worker — whose
loop tests only the `workerShutdown` flag, set by the control loop, not
the interrupt flag — finishes task 2, dispatches and finishes task 3,
and then dispatches task 4, all with the interrupt flag already true.
So task 4 is dispatched after `Interrupt`, refuting the guarantee. -/
theorem claim_C9_counterexample :
    Relation.ReflTransGen (Step (0 : Nat))
      ⟨[1, 2, 3, 4, 5], [], [WorkerPhase.idle], false, false⟩
      ⟨[3, 4, 5], [2], [WorkerPhase.running 2], true, false⟩
    ∧ ((⟨[3, 4, 5], [2], [WorkerPhase.running 2], true, false⟩ : SysState Nat).isInterrupt
        = true)
    ∧ ((4 : Nat) ∈ (⟨[3, 4, 5], [2], [WorkerPhase.running 2], true, false⟩
        : SysState Nat).queue)
    ∧ Relation.ReflTransGen (Step (0 : Nat))
      ⟨[3, 4, 5], [2], [WorkerPhase.running 2], true, false⟩
      ⟨[5], [], [WorkerPhase.polled 4], true, false⟩
    ∧ ((⟨[5], [], [WorkerPhase.polled 4], true, false⟩ : SysState Nat).workers[0]?
        = some (WorkerPhase.polled 4)) := by
  refine ⟨?_, rfl, by simp, ?_, rfl⟩
  · exact Relation.ReflTransGen.tail (Relation.ReflTransGen.tail (Relation.ReflTransGen.tail
      (Relation.ReflTransGen.tail (Relation.ReflTransGen.tail (Relation.ReflTransGen.single
        (Step.pollTask _ 0 1 [2, 3, 4, 5] rfl rfl rfl (by decide)))
        (Step.addRunning _ 0 1 rfl))
        (Step.finishTask _ 0 1 rfl))
        (Step.pollTask _ 0 2 [3, 4, 5] rfl rfl rfl (by decide)))
        (Step.addRunning _ 0 2 rfl))
        (Step.interruptCall _)
  · exact Relation.ReflTransGen.tail (Relation.ReflTransGen.tail (Relation.ReflTransGen.tail
      (Relation.ReflTransGen.tail (Relation.ReflTransGen.single
        (Step.finishTask _ 0 2 rfl))
        (Step.pollTask _ 0 3 [4, 5] rfl rfl rfl (by decide)))
        (Step.addRunning _ 0 3 rfl))
        (Step.finishTask _ 0 3 rfl))
        (Step.pollTask _ 0 4 [5] rfl rfl rfl (by decide))

/-- C9 amended: the no-new-dispatch guarantee is tied to the
`workerShutdown` flag that the control loop sets after it observes the
interrupt flag (or completion), not to `Interrupt()` itself: once
`workerShutdown` is true, no step dispatches a task — a worker holding a
polled task already held it before the step — and the queue only grows,
so tasks still queued at that point are abandoned there (and are
reported by `GetQueuedTaskList` after `Start` returns). -/
theorem claim_C9_amended (z : Nat) (s s' : SysState Nat) (hstep : Step z s s')
    (hsd : s.workerShutdown = true) :
    (∀ (i : Nat) (t : Nat), s'.workers[i]? = some (WorkerPhase.polled t)
      → s.workers[i]? = some (WorkerPhase.polled t))
    ∧ (∃ ext, s'.queue = s.queue ++ ext) :=
  step_no_dispatch_after_shutdown z s s' hstep hsd

/-- Witness for C9: a `Retry` step taken after the worker-stop flag is
set leaves the idle worker undispatched and only appends to the queue. -/
theorem claim_C9_amended_witness :
    (∀ (i : Nat) (t : Nat),
      (⟨[9, 7], [], [WorkerPhase.idle], true, true⟩ : SysState Nat).workers[i]?
          = some (WorkerPhase.polled t)
        → (⟨[9], [], [WorkerPhase.idle], true, true⟩ : SysState Nat).workers[i]?
          = some (WorkerPhase.polled t))
    ∧ (∃ ext, ([9, 7] : List Nat) = [9] ++ ext) :=
  claim_C9_amended 0 ⟨[9], [], [WorkerPhase.idle], true, true⟩ _ (Step.retryCall _ 7) rfl
